import Mathlib

/-!
Verification of the gainer-ranking pipeline of the `financial-api`
repository (`src/gainers_engine.py` and `src/polygon_client.py`).

Python floats are modelled as rationals (ℚ); `datetime` instants are
modelled as integers (ℤ).  Network responses are modelled as oracle
functions passed in as parameters, with `Option`'s `none` standing for a
raised exception.  Python dicts that are only used through keyed lookup
(the name cache and the returned name mapping) are modelled as functions
`String → Option String`; the bar mapping built by `dict(results)` is
modelled as its association list together with a last-binding-wins lookup.
-/

/-- Models Python's builtin round(x, 2): round half to even on the
scaled value.  (On the Python side the argument is a binary float, so an
exact decimal tie essentially never occurs; the claims under study never
exercise the tie case.) -/
def pyRound2 (q : ℚ) : ℚ :=
  let x := q * 100
  let f : ℤ := ⌊x⌋
  let frac : ℚ := x - f
  let n : ℤ :=
    if frac < 1/2 then f
    else if 1/2 < frac then f + 1
    else if f % 2 = 0 then f else f + 1
  (n : ℚ) / 100

/-- Models `StockBar` of `polygon_client.py` (a 1-minute OHLCV bar).
The field `opn` models the Python attribute `open`, which is a reserved
word in Lean. -/
structure StockBar where
  ticker : String
  opn : ℚ
  high : ℚ
  low : ℚ
  close : ℚ
  volume : ℤ
  timestamp : ℤ
  vwap : Option ℚ
deriving DecidableEq, Repr

/-- Models one raw snapshot dict coming out of `get_gainers` /
`get_all_tickers_snapshot`.  `ticker` models `snap.get("ticker", "")`
(a missing key yields `""`); each other field models the corresponding
nested `get`, with `none` for a missing key, so that for example `dayC`
is `snap.get("day", {}).get("c")`. -/
structure RawSnap where
  ticker : String
  dayC : Option ℚ
  dayO : Option ℚ
  dayV : Option ℤ
  prevDayC : Option ℚ
  minC : Option ℚ
  todaysChangePerc : Option ℚ
deriving DecidableEq, Repr

/-- Models the candidate dict built in `GainersEngine.get_top_gainers`
(lines 75-83 of `gainers_engine.py`). -/
structure Candidate where
  ticker : String
  current_price : ℚ
  volume : ℤ
  day_gain : ℚ
  day_open : ℚ
deriving DecidableEq, Repr

/-- Models the `GainerReport` dataclass of `gainers_engine.py`. -/
structure GainerReport where
  ticker : String
  name : String
  current_price : ℚ
  volume : ℤ
  gain_10min_percent : ℚ
  gain_day_percent : ℚ
  timestamp : ℤ
deriving DecidableEq, Repr

/-- Models `min_data.get("c") or day_data.get("c", 0)`: Python's `or`
falls through on a missing (`None`) or zero (falsy) minute close. -/
def currentPrice (s : RawSnap) : ℚ :=
  match s.minC with
  | some c => if c = 0 then s.dayC.getD 0 else c
  | none => s.dayC.getD 0

/-- Models one iteration of the candidate loop of
`GainersEngine.get_top_gainers` (lines 51-83): `none` when the entry is
skipped by `continue`. -/
def mkCandidate (snap : RawSnap) : Option Candidate :=
  if snap.ticker = "" then none
  else
    let current_price := currentPrice snap
    if current_price ≤ 0 then none
    else
      let prev_close := snap.prevDayC.getD 0
      let day_open := snap.dayO.getD prev_close
      let day_gain :=
        if prev_close > 0 then ((current_price - prev_close) / prev_close) * 100 else 0
      some
        { ticker := snap.ticker
          current_price := current_price
          volume := snap.dayV.getD 0
          day_gain := day_gain
          day_open := day_open }

/-- A Python dict used only through keyed lookup, modelled as a partial
map. -/
def StrMap : Type := String → Option String

/-- Models dict assignment `m[k] = v`. -/
def StrMap.insert (m : StrMap) (k v : String) : StrMap :=
  fun x => if x = k then some v else m x

/-- Models the empty dict. -/
def StrMap.emptyMap : StrMap := fun _ => none

/-- Models one item of `data.get("results", [])` in
`get_ticker_details_batch`: `name` is `item.get("name")` (`none` when
missing), `ticker` is `item.get("ticker", "")`. -/
structure TickerItem where
  name : Option String
  ticker : String
deriving DecidableEq, Repr

/-- Structural helper for `chunks50`; the fuel argument is the length of
the list, which bounds the number of chunks. -/
def chunks50Go : ℕ → List String → List (List String)
  | _, [] => []
  | 0, _ => []
  | n + 1, l => l.take 50 :: chunks50Go n (l.drop 50)

/-- Models the chunking loop `for i in range(0, len(uncached), 50):
chunk = uncached[i : i + 50]` of `get_ticker_details_batch`. -/
def chunks50 (l : List String) : List (List String) :=
  chunks50Go l.length l

/-- Models one iteration of the `for item in data.get("results", [])`
body of `get_ticker_details_batch` (lines 120-125): the state is the
pair (`self._ticker_names` cache, `result` dict). -/
def itemStep (st : StrMap × StrMap) (item : TickerItem) : StrMap × StrMap :=
  let name := item.name.getD item.ticker
  if item.ticker = "" then st
  else (st.1.insert item.ticker name, st.2.insert item.ticker name)

/-- Models the `for item in data.get("results", [])` loop of
`get_ticker_details_batch`. -/
def processItems (items : List TickerItem) (st : StrMap × StrMap) : StrMap × StrMap :=
  items.foldl itemStep st

/-- Models one iteration of the first loop of
`get_ticker_details_batch` (lines 102-106). -/
def splitStep (cache : StrMap) (acc : StrMap × List String) (t : String) :
    StrMap × List String :=
  match cache t with
  | some v => (acc.1.insert t v, acc.2)
  | none => (acc.1, acc.2 ++ [t])

/-- Models the first loop of `get_ticker_details_batch` (lines 100-106):
split `tickers` into the `result` dict of cached entries and the
`uncached` list, preserving order and duplicates. -/
def splitCached (cache : StrMap) (tickers : List String) : StrMap × List String :=
  tickers.foldl (splitStep cache) (StrMap.emptyMap, [])

/-- Models the chunked request loop of `get_ticker_details_batch`
(lines 113-127).  `resp i c` is the provider's answer to the request for
the `i`-th chunk `c`: `none` models a raised exception (swallowed by the
`except: pass`). -/
def processChunks (resp : ℕ → List String → Option (List TickerItem)) :
    List (List String) → ℕ → StrMap × StrMap → StrMap × StrMap
  | [], _, st => st
  | c :: cs, i, st =>
    match resp i c with
    | some items => processChunks resp cs (i + 1) (processItems items st)
    | none => processChunks resp cs (i + 1) st

/-- Models one iteration of the fill-in loop of
`get_ticker_details_batch` (lines 130-132): any uncached ticker still
missing from `result` falls back to the symbol itself. -/
def fillStep (r : StrMap) (t : String) : StrMap :=
  if (r t).isSome then r else r.insert t t

/-- Models `PolygonClient.get_ticker_details_batch` (lines 97-134):
returns the updated `self._ticker_names` cache together with the
`result` mapping. -/
def get_ticker_details_batch (resp : ℕ → List String → Option (List TickerItem))
    (cache : StrMap) (tickers : List String) : StrMap × StrMap :=
  let split := splitCached cache tickers
  let result := split.1
  let uncached := split.2
  if uncached = [] then (cache, result)
  else
    let st := processChunks resp (chunks50 uncached) 0 (cache, result)
    let result2 := uncached.foldl fillStep st.2
    (st.1, result2)

/-- Models `PolygonClient.get_ticker_details` (lines 83-95).  `resp` is
the provider's answer for this ticker: `none` models a raised exception
(caught, returning the symbol fallback without caching); `some nm`
models a 2xx response whose `data.get("results", {}).get("name")` is
`nm`.  Returns the updated cache and the resolved name. -/
def get_ticker_details (resp : Option (Option String)) (cache : StrMap)
    (t : String) : StrMap × String :=
  match cache t with
  | some n => (cache, n)
  | none =>
    match resp with
    | none => (cache, t)
    | some nm =>
      let name := nm.getD t
      (cache.insert t name, name)

/-- Models the window clipping of `fetch_single` in
`fetch_recent_bars_batch` (lines 208-209): keep bars whose timestamp
lies in `[startT, endT]`, then `window[-minutes:] if len(window) >
minutes else window`.  (For `minutes = 0`, the Python slice `[-0:]` is
the whole list.) -/
def windowClip (minutes : ℕ) (startT endT : ℤ) (bars : List StockBar) : List StockBar :=
  let window := bars.filter (fun b => decide (startT ≤ b.timestamp) && decide (b.timestamp ≤ endT))
  if minutes < window.length then
    if minutes = 0 then window else window.drop (window.length - minutes)
  else window

/-- Models `fetch_single` of `fetch_recent_bars_batch` (lines 203-211).
`agg t` is the result of `get_aggregate_bars` for ticker `t` over the
lead-in window (`none` models a raised exception, turned into an empty
bar list for that ticker). -/
def fetch_single (agg : String → Option (List StockBar)) (minutes : ℕ)
    (startT endT : ℤ) (t : String) : String × List StockBar :=
  match agg t with
  | some bars => (t, windowClip minutes startT endT bars)
  | none => (t, [])

/-- Models `PolygonClient.fetch_recent_bars_batch` (lines 195-215): the
association list underlying `dict(results)`. -/
def fetch_recent_bars_batch (agg : String → Option (List StockBar)) (minutes : ℕ)
    (startT endT : ℤ) (tickers : List String) : List (String × List StockBar) :=
  tickers.map (fetch_single agg minutes startT endT)

/-- Models `dict(pairs).get(k)`: with duplicate keys the last binding
wins. -/
def dictGet {α : Type} (ps : List (String × α)) (k : String) : Option α :=
  (ps.reverse.find? (fun p => p.1 == k)).map (fun p => p.2)

/-- Models `bars[0].open` of the report loop (`0` is unreachable: it is
only read behind the `len(bars) >= 2` check). -/
def firstOpen (bars : List StockBar) : ℚ :=
  match bars with
  | [] => 0
  | b :: _ => b.opn

/-- Models `bars[-1].close` of the report loop. -/
def lastClose (bars : List StockBar) : ℚ :=
  match bars.getLast? with
  | none => 0
  | some b => b.close

/-- Models the 10-minute-gain computation of the report loop of
`get_top_gainers` (lines 104-110). -/
def gain10 (bars : List StockBar) : ℚ :=
  if 2 ≤ bars.length then
    let first_price := firstOpen bars
    if first_price > 0 then ((lastClose bars - first_price) / first_price) * 100 else 0
  else 0

/-- Models one iteration of the report loop of `get_top_gainers`
(lines 100-122). -/
def buildReport (name_map : StrMap) (bars_map : List (String × List StockBar))
    (now : ℤ) (c : Candidate) : GainerReport :=
  let bars := (dictGet bars_map c.ticker).getD []
  { ticker := c.ticker
    name := (name_map c.ticker).getD c.ticker
    current_price := c.current_price
    volume := c.volume
    gain_10min_percent := pyRound2 (gain10 bars)
    gain_day_percent := pyRound2 c.day_gain
    timestamp := now }

/-- Models lines 43-47 of `get_top_gainers`: use the primary gainers
snapshot, falling back to the all-tickers snapshot when it is empty. -/
def selectSnapshots (primary fallback : List RawSnap) : List RawSnap :=
  if primary = [] then fallback else primary

/-- The comparison of `candidates.sort(key=lambda c: c["day_gain"],
reverse=True)`: a stable sort descending by day gain. -/
def dayGainGE (a b : Candidate) : Bool := decide (b.day_gain ≤ a.day_gain)

/-- The comparison of `reports.sort(key=lambda r: r.gain_10min_percent,
reverse=True)`: a stable sort descending by 10-minute gain. -/
def gain10GE (a b : GainerReport) : Bool :=
  decide (b.gain_10min_percent ≤ a.gain_10min_percent)

/-- The deterministic fixture for one pipeline run: the two snapshot
endpoints, the per-ticker aggregate-bar oracle, the per-chunk
name-details oracle, and the window boundaries `start_time`/`end_time`
computed from the clock at lines 199-200. -/
structure Fixture where
  primary : List RawSnap
  fallback : List RawSnap
  agg : String → Option (List StockBar)
  resp : ℕ → List String → Option (List TickerItem)
  startT : ℤ
  endT : ℤ

/-- Stages 1-3 of `get_top_gainers` (lines 43-87): snapshot selection,
the candidate loop over the first 100 entries, the stable sort by day
gain, and the `top_n + 10` truncation. -/
def gainersCandidates (top_n : ℕ) (fx : Fixture) : List Candidate :=
  let snapshots := selectSnapshots fx.primary fx.fallback
  let candidates := (snapshots.take 100).filterMap mkCandidate
  (candidates.mergeSort dayGainGE).take (top_n + 10)

/-- Stages 4-6 of `get_top_gainers` (lines 89-122): the bar and name
fetches over the kept candidates and the report loop.  `cache` is the
client's `_ticker_names` at call time and `now` the report timestamp
clock. -/
def gainersReports (top_n lookback_minutes : ℕ) (fx : Fixture) (cache : StrMap)
    (now : ℤ) : List GainerReport :=
  let candidates := gainersCandidates top_n fx
  let tickers := candidates.map (fun c => c.ticker)
  let bars_map := fetch_recent_bars_batch fx.agg lookback_minutes fx.startT fx.endT tickers
  let name_map := (get_ticker_details_batch fx.resp cache tickers).2
  candidates.map (buildReport name_map bars_map now)

/-- Models `GainersEngine.get_top_gainers` (lines 32-126) end to end. -/
def get_top_gainers (top_n lookback_minutes : ℕ) (fx : Fixture) (cache : StrMap)
    (now : ℤ) : List GainerReport :=
  ((gainersReports top_n lookback_minutes fx cache now).mergeSort gain10GE).take top_n

/-- Models one iteration of the loop of
`GainersEngine.get_top_gainers_simple` (lines 137-172); `nameOf` models
`_get_ticker_name` (deterministic per ticker given fixed fixtures, since
the first resolution is memoised). -/
def mkSimpleReport (nameOf : String → String) (now : ℤ) (snap : RawSnap) :
    Option GainerReport :=
  if snap.ticker = "" then none
  else
    let current_price := currentPrice snap
    let prev_close := snap.prevDayC.getD 0
    if current_price ≤ 0 then none
    else
      let day_gain :=
        if prev_close > 0 then ((current_price - prev_close) / prev_close) * 100 else 0
      let todays_change := snap.todaysChangePerc.getD day_gain
      some
        { ticker := snap.ticker
          name := nameOf snap.ticker
          current_price := current_price
          volume := snap.dayV.getD 0
          gain_10min_percent := pyRound2 todays_change
          gain_day_percent := pyRound2 day_gain
          timestamp := now }

/-- Models `GainersEngine.get_top_gainers_simple` (lines 128-174). -/
def get_top_gainers_simple (top_n : ℕ) (snapshots : List RawSnap)
    (nameOf : String → String) (now : ℤ) : List GainerReport :=
  (snapshots.take top_n).filterMap (mkSimpleReport nameOf now)

/-! Shared helper lemmas. -/

theorem pyRound2_zero : pyRound2 0 = 0 := by
  norm_num [pyRound2]

theorem StrMap.insert_apply (m : StrMap) (k v x : String) :
    (m.insert k v) x = if x = k then some v else m x := rfl

theorem fetch_single_fst (agg : String → Option (List StockBar)) (minutes : ℕ)
    (startT endT : ℤ) (t : String) : (fetch_single agg minutes startT endT t).1 = t := by
  unfold fetch_single
  cases agg t <;> rfl

theorem gain10GE_trans (a b c : GainerReport) :
    gain10GE a b → gain10GE b c → gain10GE a c := by
  simp only [gain10GE, decide_eq_true_eq]
  exact fun h1 h2 => le_trans h2 h1

theorem gain10GE_total (a b : GainerReport) : gain10GE a b || gain10GE b a := by
  simp only [gain10GE, Bool.or_eq_true, decide_eq_true_eq]
  exact le_total b.gain_10min_percent a.gain_10min_percent

/-! Claim C4: non-positive previous close gives day gain 0 and the
division is guarded. -/

/-- C4: for every snapshot entry, both engines compute day-gain 0
whenever the previous session close is at most 0, and the day-gain
division only ever happens under the guard `prev_close > 0`, so its
divisor is never 0. -/
theorem day_gain_zero_of_nonpos_prev_close :
    (∀ (snap : RawSnap) (c : Candidate), snap.prevDayC.getD 0 ≤ 0 →
      mkCandidate snap = some c → c.day_gain = 0) ∧
    (∀ (nameOf : String → String) (now : ℤ) (snap : RawSnap) (r : GainerReport),
      snap.prevDayC.getD 0 ≤ 0 → mkSimpleReport nameOf now snap = some r →
      r.gain_day_percent = 0) ∧
    (∀ (snap : RawSnap) (c : Candidate), mkCandidate snap = some c →
      c.day_gain = 0 ∨ 0 < snap.prevDayC.getD 0) := by
  refine ⟨?_, ?_, ?_⟩
  · intro snap c hprev h
    simp only [mkCandidate] at h
    split_ifs at h with h1 h2 h3
    · exact absurd h3 (not_lt.mpr hprev)
    · simp only [Option.some.injEq] at h
      rw [← h]
  · intro nameOf now snap r hprev h
    simp only [mkSimpleReport] at h
    split_ifs at h with h1 h2 h3
    · exact absurd h3 (not_lt.mpr hprev)
    · simp only [Option.some.injEq] at h
      rw [← h]
      exact pyRound2_zero
  · intro snap c h
    simp only [mkCandidate] at h
    split_ifs at h with h1 h2 h3
    · exact Or.inr h3
    · simp only [Option.some.injEq] at h
      rw [← h]
      exact Or.inl rfl

/-- Witness snapshot for C4: a positive day close, no previous-day
data at all. -/
def witSnap : RawSnap :=
  { ticker := "T", dayC := some 1, dayO := none, dayV := none, prevDayC := none,
    minC := none, todaysChangePerc := none }

/-- Witness candidate for C4. -/
def witCand : Candidate :=
  { ticker := "T", current_price := 1, volume := 0, day_gain := 0, day_open := 0 }

/-- Evaluation of `mkCandidate` at the witness snapshot. -/
theorem mkCandidate_witSnap : mkCandidate witSnap = some witCand := by
  unfold mkCandidate
  rw [if_neg (show ¬(witSnap.ticker = "") by decide)]
  norm_num [currentPrice, witSnap, witCand]

/-- Witness for C4 at `witSnap`. -/
theorem day_gain_zero_of_nonpos_prev_close_witness : witCand.day_gain = 0 :=
  day_gain_zero_of_nonpos_prev_close.1 witSnap witCand (by norm_num [witSnap])
    mkCandidate_witSnap

/-! Claim C10: entries with a ticker and a positive current price always
become candidates, with safe defaults for every missing field. -/

/-- C10: a snapshot entry with a non-empty ticker and positive current
price always yields a candidate (no entry is skipped and, in the
embedding of the total Python code, no exception path exists); a missing
previous close gives day gain 0, a missing volume gives volume 0, and a
missing or zero intraday-minute close falls back to the daily close. -/
theorem candidate_built_with_defaults (snap : RawSnap) (ht : snap.ticker ≠ "")
    (hp : 0 < currentPrice snap) :
    mkCandidate snap = some
      { ticker := snap.ticker
        current_price := currentPrice snap
        volume := snap.dayV.getD 0
        day_gain :=
          if snap.prevDayC.getD 0 > 0 then
            ((currentPrice snap - snap.prevDayC.getD 0) / snap.prevDayC.getD 0) * 100
          else 0
        day_open := snap.dayO.getD (snap.prevDayC.getD 0) } ∧
    (snap.prevDayC = none → (mkCandidate snap).map Candidate.day_gain = some 0) ∧
    (snap.dayV = none → (mkCandidate snap).map Candidate.volume = some 0) ∧
    ((snap.minC = none ∨ snap.minC = some 0) → currentPrice snap = snap.dayC.getD 0) := by
  have hmk : mkCandidate snap = some
      { ticker := snap.ticker
        current_price := currentPrice snap
        volume := snap.dayV.getD 0
        day_gain :=
          if snap.prevDayC.getD 0 > 0 then
            ((currentPrice snap - snap.prevDayC.getD 0) / snap.prevDayC.getD 0) * 100
          else 0
        day_open := snap.dayO.getD (snap.prevDayC.getD 0) } := by
    unfold mkCandidate
    rw [if_neg ht, if_neg (not_le.mpr hp)]
  refine ⟨hmk, ?_, ?_, ?_⟩
  · intro hprev
    rw [hmk]
    simp [hprev]
  · intro hv
    rw [hmk]
    simp [hv]
  · intro hmin
    rcases hmin with hmin | hmin <;> simp [currentPrice, hmin]

/-- Witness for C10: an entry carrying only a ticker and a daily close. -/
theorem candidate_built_with_defaults_witness :
    mkCandidate witSnap = some
      { ticker := "T", current_price := 1, volume := 0, day_gain := 0, day_open := 0 } := by
  have h := candidate_built_with_defaults witSnap (by decide)
    (by norm_num [currentPrice, witSnap])
  rw [h.1]
  norm_num [witSnap, currentPrice]

/-! Claim C7: fallback snapshot is consulted exactly when the primary
one is empty. -/

/-- C7: when the primary gainers snapshot is empty the pipeline works on
the fallback all-tickers snapshot, when it is non-empty the fallback is
ignored, and `get_top_gainers` depends on the two snapshot endpoints
only through this selection. -/
theorem fallback_snapshot_selection :
    (∀ fallback : List RawSnap, selectSnapshots [] fallback = fallback) ∧
    (∀ primary fallback : List RawSnap, primary ≠ [] →
      selectSnapshots primary fallback = primary) ∧
    (∀ (top_n lookback_minutes : ℕ) (fx : Fixture) (cache : StrMap) (now : ℤ),
      get_top_gainers top_n lookback_minutes fx cache now =
        get_top_gainers top_n lookback_minutes
          { fx with primary := selectSnapshots fx.primary fx.fallback
                    fallback := selectSnapshots fx.primary fx.fallback } cache now) := by
  have hsel : ∀ s : List RawSnap, selectSnapshots s s = s := by
    intro s
    unfold selectSnapshots
    split <;> simp_all
  refine ⟨fun fallback => rfl, fun p fb hp => if_neg hp, ?_⟩
  intro top_n lookback fx cache now
  unfold get_top_gainers gainersReports gainersCandidates
  rw [show ({ fx with primary := selectSnapshots fx.primary fx.fallback
                      fallback := selectSnapshots fx.primary fx.fallback } : Fixture).primary
      = selectSnapshots fx.primary fx.fallback from rfl]
  rw [hsel (selectSnapshots fx.primary fx.fallback)]

/-- Witness for C7 at a one-element primary snapshot. -/
theorem fallback_snapshot_selection_witness :
    selectSnapshots [witSnap] [] = [witSnap] :=
  fallback_snapshot_selection.2.1 [witSnap] [] (by simp)

/-! Concrete fixture of the spec's "AAA" scenario, shared by several
claims. -/

/-- First bar of the "AAA" scenario: open 9.50, close 9.50. -/
def aaaBar1 : StockBar :=
  { ticker := "AAA", opn := 9.5, high := 9.5, low := 9.5, close := 9.5, volume := 0,
    timestamp := 1, vwap := none }

/-- Second bar of the "AAA" scenario: open 9.50, close 10.45. -/
def aaaBar2 : StockBar :=
  { ticker := "AAA", opn := 9.5, high := 10.45, low := 9.5, close := 10.45, volume := 0,
    timestamp := 2, vwap := none }

/-- Snapshot of the "AAA" scenario: price 10.00, prevClose 9.00. -/
def aaaSnap : RawSnap :=
  { ticker := "AAA", dayC := some 10, dayO := some 9.5, dayV := some 1000,
    prevDayC := some 9, minC := some 10, todaysChangePerc := none }

/-- Fixture of the "AAA" scenario; the name lookup fails (symbol
fallback) and the two bars fall inside the window. -/
def aaaFx : Fixture :=
  { primary := [aaaSnap]
    fallback := []
    agg := fun t => if t = "AAA" then some [aaaBar1, aaaBar2] else none
    resp := fun _ _ => none
    startT := 0
    endT := 100 }

/-- The report the "AAA" scenario produces. -/
def aaaReport : GainerReport :=
  { ticker := "AAA", name := "AAA", current_price := 10, volume := 1000,
    gain_10min_percent := 10, gain_day_percent := 11.11, timestamp := 0 }

/-- Full evaluation of the pipeline on the "AAA" fixture. -/
theorem aaa_run_eval : get_top_gainers 1 10 aaaFx StrMap.emptyMap 0 = [aaaReport] := by
  simp [get_top_gainers, gainersReports, gainersCandidates, selectSnapshots, aaaFx,
    mkCandidate, aaaSnap, currentPrice, buildReport, fetch_recent_bars_batch,
    fetch_single, windowClip, aaaBar1, aaaBar2, get_ticker_details_batch, splitCached,
    splitStep, fillStep, itemStep, StrMap.emptyMap, chunks50, chunks50Go, processChunks,
    StrMap.insert, dictGet, gain10, firstOpen, lastClose, pyRound2, aaaReport]
  norm_num [Int.fract]

/-! Claim C8: emitted reports always have positive price and a
non-empty ticker. -/

/-- A candidate coming out of the snapshot loop passed both guards. -/
theorem mkCandidate_pos {snap : RawSnap} {c : Candidate}
    (h : mkCandidate snap = some c) : 0 < c.current_price ∧ c.ticker ≠ "" := by
  simp only [mkCandidate] at h
  split_ifs at h with h1 h2 h3 <;>
    · simp only [Option.some.injEq] at h
      rw [← h]
      exact ⟨not_le.mp h2, h1⟩

/-- A simple-engine report passed both guards. -/
theorem mkSimpleReport_pos {nameOf : String → String} {now : ℤ} {snap : RawSnap}
    {r : GainerReport} (h : mkSimpleReport nameOf now snap = some r) :
    0 < r.current_price ∧ r.ticker ≠ "" := by
  simp only [mkSimpleReport] at h
  split_ifs at h with h1 h2 h3 <;>
    · simp only [Option.some.injEq] at h
      rw [← h]
      exact ⟨not_le.mp h2, h1⟩

/-- Membership in the kept candidate list comes from the snapshot
loop. -/
theorem mem_gainersCandidates {top_n : ℕ} {fx : Fixture} {c : Candidate}
    (h : c ∈ gainersCandidates top_n fx) : ∃ snap, mkCandidate snap = some c := by
  simp only [gainersCandidates] at h
  have h1 := List.mem_of_mem_take h
  rw [List.mem_mergeSort] at h1
  obtain ⟨snap, -, hs⟩ := List.mem_filterMap.mp h1
  exact ⟨snap, hs⟩

/-- C8: every report emitted by `get_top_gainers` or by
`get_top_gainers_simple` has a strictly positive current price and a
non-empty ticker; snapshot entries with a non-positive price or a
missing ticker never reach the output. -/
theorem emitted_reports_positive_price :
    (∀ (top_n lookback_minutes : ℕ) (fx : Fixture) (cache : StrMap) (now : ℤ)
       (r : GainerReport), r ∈ get_top_gainers top_n lookback_minutes fx cache now →
       0 < r.current_price ∧ r.ticker ≠ "") ∧
    (∀ (top_n : ℕ) (snapshots : List RawSnap) (nameOf : String → String) (now : ℤ)
       (r : GainerReport), r ∈ get_top_gainers_simple top_n snapshots nameOf now →
       0 < r.current_price ∧ r.ticker ≠ "") := by
  constructor
  · intro top_n lookback fx cache now r hr
    simp only [get_top_gainers] at hr
    have h1 := List.mem_of_mem_take hr
    rw [List.mem_mergeSort] at h1
    simp only [gainersReports] at h1
    obtain ⟨c, hc, hbc⟩ := List.mem_map.mp h1
    obtain ⟨snap, hs⟩ := mem_gainersCandidates hc
    have hpos := mkCandidate_pos hs
    rw [← hbc]
    exact hpos
  · intro top_n snapshots nameOf now r hr
    simp only [get_top_gainers_simple] at hr
    obtain ⟨snap, -, hs⟩ := List.mem_filterMap.mp hr
    exact mkSimpleReport_pos hs

/-- Witness for C8 on the "AAA" fixture. -/
theorem emitted_reports_positive_price_witness :
    0 < aaaReport.current_price ∧ aaaReport.ticker ≠ "" :=
  emitted_reports_positive_price.1 1 10 aaaFx StrMap.emptyMap 0 aaaReport
    (by rw [aaa_run_eval]; exact List.mem_singleton.mpr rfl)

/-! Claim C3: no candidate is dropped for lacking bars. -/

/-- Searching a list for an element it contains finds that element. -/
theorem find_self_of_mem {l : List String} {t : String} (h : t ∈ l) :
    l.find? (fun x => x == t) = some t := by
  induction l with
  | nil => exact absurd h (List.not_mem_nil t)
  | cons a l ih =>
    by_cases ha : (a == t) = true
    · rw [@List.find?_cons_of_pos String (fun x => x == t) a l ha, eq_of_beq ha]
    · rw [@List.find?_cons_of_neg String (fun x => x == t) a l ha]
      rcases List.mem_cons.mp h with rfl | h'
      · exact absurd (beq_self_eq_true t) ha
      · exact ih h'

/-- C3: a failed per-ticker bar fetch resolves to an empty bar list in
the batch result without aborting it; the report loop builds exactly one
report per kept candidate, keeping its ticker; and a candidate whose bar
list has fewer than 2 bars gets short-window gain exactly 0 instead of
being dropped. -/
theorem candidate_never_dropped_for_bars :
    (∀ (agg : String → Option (List StockBar)) (minutes : ℕ) (startT endT : ℤ)
       (tickers : List String) (t : String), t ∈ tickers → agg t = none →
       dictGet (fetch_recent_bars_batch agg minutes startT endT tickers) t = some []) ∧
    (∀ (top_n lookback_minutes : ℕ) (fx : Fixture) (cache : StrMap) (now : ℤ),
       (gainersReports top_n lookback_minutes fx cache now).length =
         (gainersCandidates top_n fx).length) ∧
    (∀ (name_map : StrMap) (bars_map : List (String × List StockBar)) (now : ℤ)
       (c : Candidate),
       (buildReport name_map bars_map now c).ticker = c.ticker ∧
       (((dictGet bars_map c.ticker).getD []).length < 2 →
         (buildReport name_map bars_map now c).gain_10min_percent = 0)) := by
  refine ⟨?_, ?_, ?_⟩
  · intro agg minutes startT endT tickers t ht hagg
    unfold dictGet fetch_recent_bars_batch
    rw [← List.map_reverse, List.find?_map]
    have hcomp : ((fun p : String × List StockBar => p.1 == t) ∘
        fetch_single agg minutes startT endT) = fun x => x == t := by
      funext x
      simp [Function.comp, fetch_single_fst]
    rw [hcomp, find_self_of_mem (List.mem_reverse.mpr ht)]
    simp [fetch_single, hagg]
  · intro top_n lookback fx cache now
    simp [gainersReports]
  · intro name_map bars_map now c
    refine ⟨rfl, fun hlen => ?_⟩
    show pyRound2 (gain10 ((dictGet bars_map c.ticker).getD [])) = 0
    rw [gain10, if_neg (by omega), pyRound2_zero]

/-- Witness for C3: the bar fetch for "BBB" raises, yet the batch maps
"BBB" to an empty bar list. -/
theorem candidate_never_dropped_for_bars_witness :
    dictGet (fetch_recent_bars_batch (fun _ => none) 10 0 100 ["BBB"]) "BBB" = some [] :=
  candidate_never_dropped_for_bars.1 (fun _ => none) 10 0 100 ["BBB"] "BBB"
    (List.mem_singleton.mpr rfl) rfl

/-! Claim C2: the two-bar gain formula and the "AAA" scenario. -/

/-- The candidate of the "AAA" scenario. -/
def aaaCand : Candidate :=
  { ticker := "AAA", current_price := 10, volume := 1000, day_gain := 100/9,
    day_open := 9.5 }

/-- C2: whenever a candidate's bar list has at least 2 bars and the
first bar's open is positive, the report's short-window gain is
round(((last close − first open) / first open) × 100, 2); and on the
"AAA" fixture the pipeline returns exactly one report with day gain
11.11 and short-window gain 10. -/
theorem gain_formula_and_aaa_scenario :
    (∀ (name_map : StrMap) (bars_map : List (String × List StockBar)) (now : ℤ)
       (c : Candidate) (bars : List StockBar),
       dictGet bars_map c.ticker = some bars → 2 ≤ bars.length → 0 < firstOpen bars →
       (buildReport name_map bars_map now c).gain_10min_percent =
         pyRound2 (((lastClose bars - firstOpen bars) / firstOpen bars) * 100)) ∧
    get_top_gainers 1 10 aaaFx StrMap.emptyMap 0 =
      [{ ticker := "AAA", name := "AAA", current_price := 10, volume := 1000,
         gain_10min_percent := 10, gain_day_percent := 11.11, timestamp := 0 }] := by
  constructor
  · intro name_map bars_map now c bars hlook hlen hopen
    show pyRound2 (gain10 ((dictGet bars_map c.ticker).getD [])) = _
    rw [hlook, Option.getD_some, gain10, if_pos hlen, if_pos hopen]
  · exact aaa_run_eval

/-- Witness for C2 at the "AAA" candidate and bars. -/
theorem gain_formula_and_aaa_scenario_witness :
    (buildReport StrMap.emptyMap [("AAA", [aaaBar1, aaaBar2])] 0 aaaCand).gain_10min_percent =
      pyRound2 (((lastClose [aaaBar1, aaaBar2] - firstOpen [aaaBar1, aaaBar2]) /
        firstOpen [aaaBar1, aaaBar2]) * 100) :=
  gain_formula_and_aaa_scenario.1 StrMap.emptyMap [("AAA", [aaaBar1, aaaBar2])] 0 aaaCand
    [aaaBar1, aaaBar2] (by simp [dictGet, aaaCand]) (by simp)
    (by norm_num [firstOpen, aaaBar1])

/-! Claim C1: the result is truncated to `top_n` and stably sorted by
short-window gain, descending. -/

/-- Stability of the final sort: within any class of equal short-window
gains, the sorted list keeps the order the reports (one per candidate)
had before the sort. -/
theorem mergeSort_filter_gain (l : List GainerReport) (g : ℚ) :
    (l.mergeSort gain10GE).filter (fun r => decide (r.gain_10min_percent = g)) =
      l.filter (fun r => decide (r.gain_10min_percent = g)) := by
  have hpair : (l.filter (fun r => decide (r.gain_10min_percent = g))).Pairwise
      (fun a b => gain10GE a b = true) := by
    apply List.pairwise_of_forall_mem_list
    intro a ha b hb
    have ha' := List.of_mem_filter ha
    have hb' := List.of_mem_filter hb
    simp only [decide_eq_true_eq] at ha' hb'
    simp [gain10GE, ha', hb']
  have hsub : (l.filter (fun r => decide (r.gain_10min_percent = g))).Sublist
      (l.mergeSort gain10GE) :=
    List.sublist_mergeSort gain10GE_trans gain10GE_total hpair (List.filter_sublist l)
  have hsub2 : (l.filter (fun r => decide (r.gain_10min_percent = g))).Sublist
      ((l.mergeSort gain10GE).filter (fun r => decide (r.gain_10min_percent = g))) := by
    simpa [List.filter_filter] using
      hsub.filter (fun r => decide (r.gain_10min_percent = g))
  have hlen : ((l.mergeSort gain10GE).filter
        (fun r => decide (r.gain_10min_percent = g))).length =
      (l.filter (fun r => decide (r.gain_10min_percent = g))).length :=
    ((List.mergeSort_perm l gain10GE).filter
      (fun r => decide (r.gain_10min_percent = g))).length_eq
  exact (hsub2.eq_of_length hlen.symm).symm

/-- C1: the report sequence returned by `get_top_gainers` has length at
most `top_n` and is sorted by `gain_10min_percent` descending; it is the
`top_n`-prefix of the stable sort of the per-candidate reports, where
ties keep the order the candidates held before this final sort. -/
theorem top_gainers_sorted_and_stable (top_n lookback_minutes : ℕ) (fx : Fixture)
    (cache : StrMap) (now : ℤ) :
    (get_top_gainers top_n lookback_minutes fx cache now).length ≤ top_n ∧
    (get_top_gainers top_n lookback_minutes fx cache now).Pairwise
      (fun a b => b.gain_10min_percent ≤ a.gain_10min_percent) ∧
    get_top_gainers top_n lookback_minutes fx cache now =
      ((gainersReports top_n lookback_minutes fx cache now).mergeSort gain10GE).take
        top_n ∧
    ∀ g : ℚ,
      ((gainersReports top_n lookback_minutes fx cache now).mergeSort gain10GE).filter
          (fun r => decide (r.gain_10min_percent = g)) =
        (gainersReports top_n lookback_minutes fx cache now).filter
          (fun r => decide (r.gain_10min_percent = g)) := by
  refine ⟨?_, ?_, rfl, fun g => mergeSort_filter_gain _ g⟩
  · rw [get_top_gainers, List.length_take]
    exact min_le_left _ _
  · have hs := List.sorted_mergeSort gain10GE_trans gain10GE_total
      (gainersReports top_n lookback_minutes fx cache now)
    have ht := List.Pairwise.sublist (List.take_sublist top_n _) hs
    exact ht.imp (fun h => of_decide_eq_true h)

/-! Claim C9: the pipeline is deterministic given fixtures, up to the
report timestamp. -/

/-- Replace only the timestamp of a report. -/
def withTimestamp (t : ℤ) (r : GainerReport) : GainerReport := { r with timestamp := t }

/-- All fields of a report except the timestamp. -/
def reportData (r : GainerReport) : String × String × ℚ × ℤ × ℚ × ℚ :=
  (r.ticker, r.name, r.current_price, r.volume, r.gain_10min_percent,
    r.gain_day_percent)

/-- C9: two runs of `get_top_gainers` on identical snapshot, bar and
name fixtures agree on every report field except the timestamp. -/
theorem pipeline_deterministic_up_to_timestamp (top_n lookback_minutes : ℕ)
    (fx : Fixture) (cache : StrMap) (now1 now2 : ℤ) :
    (get_top_gainers top_n lookback_minutes fx cache now1).map reportData =
      (get_top_gainers top_n lookback_minutes fx cache now2).map reportData := by
  have hrep : gainersReports top_n lookback_minutes fx cache now2 =
      (gainersReports top_n lookback_minutes fx cache now1).map (withTimestamp now2) := by
    simp only [gainersReports, List.map_map]
    rfl
  have hmap : ((gainersReports top_n lookback_minutes fx cache now1).mergeSort
        gain10GE).map (withTimestamp now2) =
      ((gainersReports top_n lookback_minutes fx cache now1).map
        (withTimestamp now2)).mergeSort gain10GE :=
    List.map_mergeSort (fun a _ b _ => rfl)
  unfold get_top_gainers
  rw [hrep, ← hmap, ← List.map_take, List.map_map]
  rfl

/-! Claim C5: the batch name lookup returns a complete mapping. -/

/-- Inserting never removes a key. -/
theorem StrMap.isSome_insert {m : StrMap} {k v x : String} (h : (m x).isSome) :
    ((m.insert k v) x).isSome := by
  rw [StrMap.insert_apply]
  split
  · rfl
  · exact h

/-- Equation for `fillStep` on a present key. -/
theorem fillStep_of_isSome {r : StrMap} {a : String} (h : (r a).isSome) :
    fillStep r a = r := by
  unfold fillStep
  rw [if_pos h]

/-- Equation for `fillStep` on an absent key. -/
theorem fillStep_of_none {r : StrMap} {a : String} (h : ¬ ((r a).isSome : Prop)) :
    fillStep r a = r.insert a a := by
  unfold fillStep
  rw [if_neg h]

/-- Equation for `splitStep` on a cached ticker. -/
theorem splitStep_cached {cache : StrMap} {t v : String} (acc : StrMap × List String)
    (h : cache t = some v) : splitStep cache acc t = (acc.1.insert t v, acc.2) := by
  unfold splitStep
  rw [h]

/-- Equation for `splitStep` on an uncached ticker. -/
theorem splitStep_uncached {cache : StrMap} {t : String} (acc : StrMap × List String)
    (h : cache t = none) : splitStep cache acc t = (acc.1, acc.2 ++ [t]) := by
  unfold splitStep
  rw [h]

/-- The fill-in loop never changes a key that is already present. -/
theorem fill_foldl_preserves (l : List String) :
    ∀ (r : StrMap) (t : String), (r t).isSome → (l.foldl fillStep r) t = r t := by
  induction l with
  | nil => exact fun r t _ => rfl
  | cons a l ih =>
    intro r t h
    rw [List.foldl_cons]
    by_cases ha : ((r a).isSome : Prop)
    · rw [fillStep_of_isSome ha]
      exact ih r t h
    · rw [fillStep_of_none ha]
      have hne : t ≠ a := fun hta => ha (hta ▸ h)
      have h' : ((r.insert a a) t).isSome := by
        rw [StrMap.insert_apply, if_neg hne]
        exact h
      rw [ih _ t h', StrMap.insert_apply, if_neg hne]

/-- After the fill-in loop, every processed or already-present key is
present. -/
theorem fill_foldl_isSome (l : List String) :
    ∀ (r : StrMap) (t : String), (t ∈ l ∨ (r t).isSome) →
      ((l.foldl fillStep r) t).isSome := by
  induction l with
  | nil =>
    intro r t h
    exact h.elim (fun h => absurd h (List.not_mem_nil t)) id
  | cons a l ih =>
    intro r t h
    rw [List.foldl_cons]
    apply ih
    rcases h with h | h
    · rcases List.mem_cons.mp h with rfl | h'
      · right
        by_cases hrt : ((r t).isSome : Prop)
        · rw [fillStep_of_isSome hrt]
          exact hrt
        · rw [fillStep_of_none hrt, StrMap.insert_apply, if_pos rfl]
          rfl
      · exact Or.inl h'
    · right
      by_cases ha : ((r a).isSome : Prop)
      · rw [fillStep_of_isSome ha]
        exact h
      · rw [fillStep_of_none ha]
        exact StrMap.isSome_insert h

/-- A processed key that was absent or already mapped to itself ends up
mapped to itself. -/
theorem fill_foldl_self (l : List String) :
    ∀ (r : StrMap) (t : String), t ∈ l → (r t = none ∨ r t = some t) →
      (l.foldl fillStep r) t = some t := by
  induction l with
  | nil => exact fun r t hmem _ => absurd hmem (List.not_mem_nil t)
  | cons a l ih =>
    intro r t hmem h0
    rw [List.foldl_cons]
    rcases List.mem_cons.mp hmem with rfl | h'
    · by_cases hrt : ((r t).isSome : Prop)
      · have hval : r t = some t := by
          rcases h0 with h0 | h0
          · rw [h0] at hrt
            exact absurd hrt (by simp)
          · exact h0
        rw [fillStep_of_isSome hrt, fill_foldl_preserves l r t hrt, hval]
      · rw [fillStep_of_none hrt]
        have h' : ((r.insert t t) t).isSome := by
          rw [StrMap.insert_apply, if_pos rfl]
          rfl
        rw [fill_foldl_preserves l _ t h', StrMap.insert_apply, if_pos rfl]
    · have hstep : ((fillStep r a) t = none ∨ (fillStep r a) t = some t) := by
        by_cases ha : ((r a).isSome : Prop)
        · rw [fillStep_of_isSome ha]
          exact h0
        · rw [fillStep_of_none ha, StrMap.insert_apply]
          by_cases hta : t = a
          · rw [if_pos hta, hta]
            exact Or.inr rfl
          · rw [if_neg hta]
            exact h0
      exact ih _ t h' hstep

/-- During the cached/uncached split, every ticker ends up either in the
`result` dict or in the `uncached` list. -/
theorem split_foldl_mem (cache : StrMap) (l : List String) (t : String) :
    ∀ acc : StrMap × List String, (t ∈ l ∨ (acc.1 t).isSome ∨ t ∈ acc.2) →
      (((l.foldl (splitStep cache) acc).1 t).isSome ∨
        t ∈ (l.foldl (splitStep cache) acc).2) := by
  induction l with
  | nil =>
    intro acc h
    exact h.elim (fun h => absurd h (List.not_mem_nil t)) id
  | cons a l ih =>
    intro acc h
    rw [List.foldl_cons]
    apply ih
    rcases h with h | h | h
    · rcases List.mem_cons.mp h with rfl | h'
      · right
        cases hca : cache t with
        | some v =>
          left
          rw [splitStep_cached acc hca]
          dsimp only
          rw [StrMap.insert_apply, if_pos rfl]
          rfl
        | none =>
          right
          rw [splitStep_uncached acc hca]
          exact List.mem_append_right _ (List.mem_singleton.mpr rfl)
      · exact Or.inl h'
    · right
      left
      cases hca : cache a with
      | some v =>
        rw [splitStep_cached acc hca]
        exact StrMap.isSome_insert h
      | none =>
        rw [splitStep_uncached acc hca]
        exact h
    · right
      right
      cases hca : cache a with
      | some v =>
        rw [splitStep_cached acc hca]
        exact h
      | none =>
        rw [splitStep_uncached acc hca]
        exact List.mem_append_left _ h

/-- A cached ticker keeps its cached name in the split's `result`
component. -/
theorem split_foldl_cached (cache : StrMap) (l : List String) (t v : String)
    (hc : cache t = some v) :
    ∀ acc : StrMap × List String, (t ∈ l ∨ acc.1 t = some v) →
      (l.foldl (splitStep cache) acc).1 t = some v := by
  induction l with
  | nil =>
    intro acc h
    exact h.elim (fun h => absurd h (List.not_mem_nil t)) id
  | cons a l ih =>
    intro acc h
    rw [List.foldl_cons]
    apply ih
    rcases h with h | h
    · rcases List.mem_cons.mp h with rfl | h'
      · right
        rw [splitStep_cached acc hc]
        dsimp only
        rw [StrMap.insert_apply, if_pos rfl]
      · exact Or.inl h'
    · right
      cases hca : cache a with
      | some w =>
        rw [splitStep_cached acc hca]
        dsimp only
        rw [StrMap.insert_apply]
        by_cases hta : t = a
        · rw [hta] at hc
          rw [hc] at hca
          injection hca with hvw
          rw [if_pos hta, hvw]
        · rw [if_neg hta]
          exact h
      | none =>
        rw [splitStep_uncached acc hca]
        exact h

/-- An uncached ticker stays absent from the split's `result`
component. -/
theorem split_foldl_uncached (cache : StrMap) (l : List String) (t : String)
    (hc : cache t = none) :
    ∀ acc : StrMap × List String, acc.1 t = none →
      (l.foldl (splitStep cache) acc).1 t = none := by
  induction l with
  | nil => exact fun acc h => h
  | cons a l ih =>
    intro acc h
    rw [List.foldl_cons]
    apply ih
    cases hca : cache a with
    | some w =>
      rw [splitStep_cached acc hca]
      dsimp only
      rw [StrMap.insert_apply]
      by_cases hta : t = a
      · rw [hta, hca] at hc
        exact absurd hc (by simp)
      · rw [if_neg hta]
        exact h
    | none =>
      rw [splitStep_uncached acc hca]
      exact h

/-- `splitCached` keeps every input ticker in result or uncached. -/
theorem splitCached_mem (cache : StrMap) (tickers : List String) (t : String)
    (ht : t ∈ tickers) :
    ((splitCached cache tickers).1 t).isSome ∨ t ∈ (splitCached cache tickers).2 :=
  split_foldl_mem cache tickers t (StrMap.emptyMap, []) (Or.inl ht)

/-- `splitCached` copies cached names into result. -/
theorem splitCached_cached (cache : StrMap) (tickers : List String) (t v : String)
    (hc : cache t = some v) (ht : t ∈ tickers) :
    (splitCached cache tickers).1 t = some v :=
  split_foldl_cached cache tickers t v hc (StrMap.emptyMap, []) (Or.inl ht)

/-- `splitCached` leaves uncached tickers out of result. -/
theorem splitCached_uncached (cache : StrMap) (tickers : List String) (t : String)
    (hc : cache t = none) : (splitCached cache tickers).1 t = none :=
  split_foldl_uncached cache tickers t hc (StrMap.emptyMap, []) rfl

/-- The per-item loop never removes a key from the `result` dict. -/
theorem processItems_isSome (items : List TickerItem) :
    ∀ (st : StrMap × StrMap) (t : String), (st.2 t).isSome →
      ((processItems items st).2 t).isSome := by
  induction items with
  | nil => exact fun st t h => h
  | cons item items ih =>
    intro st t h
    unfold processItems at *
    rw [List.foldl_cons]
    apply ih
    unfold itemStep
    split
    · exact h
    · exact StrMap.isSome_insert h

/-- The chunk loop never removes a key from the `result` dict. -/
theorem processChunks_isSome (resp : ℕ → List String → Option (List TickerItem))
    (cs : List (List String)) :
    ∀ (i : ℕ) (st : StrMap × StrMap) (t : String), (st.2 t).isSome →
      ((processChunks resp cs i st).2 t).isSome := by
  induction cs with
  | nil => exact fun i st t h => h
  | cons c cs ih =>
    intro i st t h
    unfold processChunks
    cases resp i c with
    | some items => exact ih _ _ t (processItems_isSome items st t h)
    | none => exact ih _ _ t h

/-- With every provider call failing, the chunk loop does nothing. -/
theorem processChunks_all_fail (resp : ℕ → List String → Option (List TickerItem))
    (hresp : ∀ i c, resp i c = none) (cs : List (List String)) :
    ∀ (i : ℕ) (st : StrMap × StrMap), processChunks resp cs i st = st := by
  induction cs with
  | nil => exact fun i st => rfl
  | cons c cs ih =>
    intro i st
    unfold processChunks
    rw [hresp i c]
    exact ih _ st

/-- The name `w` was returned by the provider for ticker `k` in some
chunk response. -/
def providedName (resp : ℕ → List String → Option (List TickerItem))
    (k w : String) : Prop :=
  ∃ i c items item, resp i c = some items ∧ item ∈ items ∧ item.ticker = k ∧
    item.name = some w

/-- Equation for `itemStep` on an item without ticker. -/
theorem itemStep_empty {st : StrMap × StrMap} {item : TickerItem}
    (h : item.ticker = "") : itemStep st item = st := by
  simp only [itemStep]
  rw [if_pos h]

/-- Equation for `itemStep` on an item with a ticker. -/
theorem itemStep_insert {st : StrMap × StrMap} {item : TickerItem}
    (h : ¬ item.ticker = "") :
    itemStep st item = (st.1.insert item.ticker (item.name.getD item.ticker),
      st.2.insert item.ticker (item.name.getD item.ticker)) := by
  simp only [itemStep]
  rw [if_neg h]

/-- Any value the item loop leaves in `result` at key `t` is the cached
name, a provider-returned name for `t`, or the bare symbol `t`. -/
theorem processItems_result_val (resp : ℕ → List String → Option (List TickerItem))
    (cache : StrMap) (t : String) (i : ℕ) (c : List String)
    (items : List TickerItem) (hresp : resp i c = some items) :
    ∀ (rest : List TickerItem), (∀ item ∈ rest, item ∈ items) →
    ∀ st : StrMap × StrMap,
      (st.2 t = none ∨ ∃ w, st.2 t = some w ∧
        (cache t = some w ∨ providedName resp t w ∨ w = t)) →
      ((processItems rest st).2 t = none ∨
        ∃ w, (processItems rest st).2 t = some w ∧
          (cache t = some w ∨ providedName resp t w ∨ w = t)) := by
  intro rest
  induction rest with
  | nil => exact fun _ st h => h
  | cons item rest ih =>
    intro hsub st hst
    unfold processItems at *
    rw [List.foldl_cons]
    apply ih (fun x hx => hsub x (List.mem_cons_of_mem item hx))
    by_cases hemp : item.ticker = ""
    · rw [itemStep_empty hemp]
      exact hst
    · rw [itemStep_insert hemp]
      by_cases hkt : item.ticker = t
      · right
        dsimp only
        cases hn : item.name with
        | some n =>
          refine ⟨n, ?_, Or.inr (Or.inl ⟨i, c, items, item, hresp,
            hsub item (List.mem_cons_self item rest), hkt, hn⟩)⟩
          rw [StrMap.insert_apply, if_pos hkt.symm, Option.getD_some]
        | none =>
          refine ⟨item.ticker, ?_, Or.inr (Or.inr hkt)⟩
          rw [StrMap.insert_apply, if_pos hkt.symm, Option.getD_none]
      · rcases hst with hnone | ⟨w, hw, hp⟩
        · left
          dsimp only
          rw [StrMap.insert_apply, if_neg (fun h => hkt h.symm)]
          exact hnone
        · right
          refine ⟨w, ?_, hp⟩
          dsimp only
          rw [StrMap.insert_apply, if_neg (fun h => hkt h.symm)]
          exact hw

/-- The chunk loop preserves the same `result`-value characterisation,
over every pattern of responses and failures. -/
theorem processChunks_result_val (resp : ℕ → List String → Option (List TickerItem))
    (cache : StrMap) (t : String) :
    ∀ (cs : List (List String)) (i : ℕ) (st : StrMap × StrMap),
      (st.2 t = none ∨ ∃ w, st.2 t = some w ∧
        (cache t = some w ∨ providedName resp t w ∨ w = t)) →
      ((processChunks resp cs i st).2 t = none ∨
        ∃ w, (processChunks resp cs i st).2 t = some w ∧
          (cache t = some w ∨ providedName resp t w ∨ w = t)) := by
  intro cs
  induction cs with
  | nil => exact fun i st h => h
  | cons c cs ih =>
    intro i st hst
    unfold processChunks
    cases hr : resp i c with
    | some items =>
      exact ih _ _ (processItems_result_val resp cache t i c items hr items
        (fun _ h => h) st hst)
    | none => exact ih _ _ hst

/-- If no response item carries ticker `t`, the item loop leaves
`result` unchanged at `t`. -/
theorem processItems_result_unwritten (t : String) :
    ∀ (items : List TickerItem), (∀ item ∈ items, item.ticker ≠ t) →
    ∀ st : StrMap × StrMap, (processItems items st).2 t = st.2 t := by
  intro items
  induction items with
  | nil => exact fun _ st => rfl
  | cons item rest ih =>
    intro hno st
    unfold processItems at *
    rw [List.foldl_cons, ih (fun x hx => hno x (List.mem_cons_of_mem item hx))]
    by_cases hemp : item.ticker = ""
    · rw [itemStep_empty hemp]
    · rw [itemStep_insert hemp]
      dsimp only
      rw [StrMap.insert_apply,
        if_neg (fun h => hno item (List.mem_cons_self item rest) h.symm)]

/-- If no response item of any chunk carries ticker `t`, the chunk loop
leaves `result` unchanged at `t`. -/
theorem processChunks_result_unwritten
    (resp : ℕ → List String → Option (List TickerItem)) (t : String)
    (hno : ∀ i c items item, resp i c = some items → item ∈ items →
      item.ticker ≠ t) :
    ∀ (cs : List (List String)) (i : ℕ) (st : StrMap × StrMap),
      (processChunks resp cs i st).2 t = st.2 t := by
  intro cs
  induction cs with
  | nil => exact fun i st => rfl
  | cons c cs ih =>
    intro i st
    unfold processChunks
    cases hr : resp i c with
    | some items =>
      rw [ih]
      exact processItems_result_unwritten t items
        (fun item hm => hno i c items item hr hm) st
    | none => exact ih _ st

/-- C5: over every pattern of provider responses and failures, the
mapping returned by `get_ticker_details_batch` contains every input
ticker as a key; each ticker's value is its cached name, a
provider-returned name, or the ticker symbol itself; an uncached ticker
the provider never returns an item for (not found, malformed response,
or a failed chunk) resolves to the ticker symbol itself; and when every
provider call fails, each ticker resolves to its cached name or,
failing that, to the symbol. -/
theorem names_batch_complete (resp : ℕ → List String → Option (List TickerItem))
    (cache : StrMap) (tickers : List String) :
    (∀ t ∈ tickers, ((get_ticker_details_batch resp cache tickers).2 t).isSome) ∧
    (∀ t ∈ tickers, ∃ w, (get_ticker_details_batch resp cache tickers).2 t =
        some w ∧ (cache t = some w ∨ providedName resp t w ∨ w = t)) ∧
    (∀ t ∈ tickers, cache t = none →
      (∀ i c items item, resp i c = some items → item ∈ items →
        item.ticker ≠ t) →
      (get_ticker_details_batch resp cache tickers).2 t = some t) ∧
    ((∀ i c, resp i c = none) → ∀ t ∈ tickers,
      (get_ticker_details_batch resp cache tickers).2 t =
        some ((cache t).getD t)) := by
  refine ⟨?_, ?_, ?_, ?_⟩
  · intro t ht
    simp only [get_ticker_details_batch]
    split_ifs with hu
    · rcases splitCached_mem cache tickers t ht with hs | hm
      · exact hs
      · rw [hu] at hm
        exact absurd hm (List.not_mem_nil t)
    · rcases splitCached_mem cache tickers t ht with hs | hm
      · exact fill_foldl_isSome _ _ t
          (Or.inr (processChunks_isSome resp _ 0 _ t hs))
      · exact fill_foldl_isSome _ _ t (Or.inl hm)
  · intro t ht
    simp only [get_ticker_details_batch]
    split_ifs with hu
    · cases hc : cache t with
      | some v =>
        exact ⟨v, splitCached_cached cache tickers t v hc ht, Or.inl rfl⟩
      | none =>
        rcases splitCached_mem cache tickers t ht with hs | hm
        · rw [splitCached_uncached cache tickers t hc] at hs
          exact absurd hs (by simp)
        · rw [hu] at hm
          exact absurd hm (List.not_mem_nil t)
    · have hinit : ((cache, (splitCached cache tickers).1) :
          StrMap × StrMap).2 t = none ∨
          ∃ w, ((cache, (splitCached cache tickers).1) :
            StrMap × StrMap).2 t = some w ∧
            (cache t = some w ∨ providedName resp t w ∨ w = t) := by
        cases hc : cache t with
        | some v =>
          exact Or.inr ⟨v, splitCached_cached cache tickers t v hc ht, Or.inl rfl⟩
        | none => exact Or.inl (splitCached_uncached cache tickers t hc)
      rcases processChunks_result_val resp cache t
        (chunks50 (splitCached cache tickers).2) 0 _ hinit with hnone | ⟨w, hw, hp⟩
      · have hmem2 : t ∈ (splitCached cache tickers).2 := by
          rcases splitCached_mem cache tickers t ht with hs | hm
          · have := processChunks_isSome resp
              (chunks50 (splitCached cache tickers).2) 0
              (cache, (splitCached cache tickers).1) t hs
            rw [hnone] at this
            exact absurd this (by simp)
          · exact hm
        exact ⟨t, fill_foldl_self _ _ t hmem2 (Or.inl hnone),
          Or.inr (Or.inr rfl)⟩
      · refine ⟨w, ?_, hp⟩
        dsimp only
        rw [fill_foldl_preserves _ _ t (by rw [hw]; rfl)]
        exact hw
  · intro t ht hc hno
    simp only [get_ticker_details_batch]
    split_ifs with hu
    · rcases splitCached_mem cache tickers t ht with hs | hm
      · rw [splitCached_uncached cache tickers t hc] at hs
        exact absurd hs (by simp)
      · rw [hu] at hm
        exact absurd hm (List.not_mem_nil t)
    · have h1 : (splitCached cache tickers).1 t = none :=
        splitCached_uncached cache tickers t hc
      have h2 : t ∈ (splitCached cache tickers).2 := by
        rcases splitCached_mem cache tickers t ht with hs | hm
        · rw [h1] at hs
          exact absurd hs (by simp)
        · exact hm
      have h3 : (processChunks resp (chunks50 (splitCached cache tickers).2) 0
          (cache, (splitCached cache tickers).1)).2 t = none := by
        rw [processChunks_result_unwritten resp t hno]
        exact h1
      exact fill_foldl_self _ _ t h2 (Or.inl h3)
  · intro hresp t ht
    simp only [get_ticker_details_batch]
    rw [processChunks_all_fail resp hresp]
    split_ifs with hu
    · cases hc : cache t with
      | some v =>
        simp only [Option.getD_some]
        exact splitCached_cached cache tickers t v hc ht
      | none =>
        have h1 : (splitCached cache tickers).1 t = none :=
          splitCached_uncached cache tickers t hc
        rcases splitCached_mem cache tickers t ht with hs | hm
        · rw [h1] at hs
          exact absurd hs (by simp)
        · rw [hu] at hm
          exact absurd hm (List.not_mem_nil t)
    · cases hc : cache t with
      | some v =>
        simp only [Option.getD_some]
        have h1 : (splitCached cache tickers).1 t = some v :=
          splitCached_cached cache tickers t v hc ht
        have h2 : (((cache, (splitCached cache tickers).1) : StrMap × StrMap).2
            t).isSome := by
          rw [show ((cache, (splitCached cache tickers).1) :
              StrMap × StrMap).2 = (splitCached cache tickers).1 from rfl, h1]
          rfl
        rw [fill_foldl_preserves _ _ t h2]
        exact h1
      | none =>
        simp only [Option.getD_none]
        have h1 : (splitCached cache tickers).1 t = none :=
          splitCached_uncached cache tickers t hc
        have h2 : t ∈ (splitCached cache tickers).2 := by
          rcases splitCached_mem cache tickers t ht with hs | hm
          · rw [h1] at hs
            exact absurd hs (by simp)
          · exact hm
        exact fill_foldl_self _ _ t h2 (Or.inl h1)

/-- A provider response that succeeds but resolves only the unrelated
ticker "OTH". -/
def respOther : ℕ → List String → Option (List TickerItem) :=
  fun _ _ => some [{ name := some "Other Inc.", ticker := "OTH" }]

/-- Witness for C5: the provider call succeeds but does not resolve
"ZZZ", which still appears in the mapping, as the symbol itself. -/
theorem names_batch_complete_witness :
    (get_ticker_details_batch respOther StrMap.emptyMap ["ZZZ"]).2 "ZZZ" =
      some "ZZZ" :=
  (names_batch_complete respOther StrMap.emptyMap ["ZZZ"]).2.2.1 "ZZZ"
    (List.mem_singleton.mpr rfl) rfl
    (by
      intro i c items item hitems hmem
      have h2 : (some [({ name := some "Other Inc.", ticker := "OTH" } :
          TickerItem)] : Option (List TickerItem)) = some items := hitems
      injection h2 with h3
      rw [← h3] at hmem
      rcases List.mem_singleton.mp hmem with rfl
      decide)

/-! Claim C6: cache overwriting.  The batch code writes a cache entry
for every response item carrying a ticker, even one that is already
cached; a malformed item (ticker but no name) for a cached ticker
therefore replaces a resolved name with the symbol fallback. -/

/-- A cache starting with the resolved name for "AAA". -/
def cache6 : StrMap := StrMap.emptyMap.insert "AAA" "Apple Inc."

/-- A provider response carrying an item for the already-cached ticker
"AAA" with no name field. -/
def resp6 : ℕ → List String → Option (List TickerItem) :=
  fun _ _ => some [{ name := none, ticker := "AAA" }]

/-- Counterexample to C6: requesting only "BBB" against `resp6`
overwrites the resolved name of "AAA" with the bare symbol. -/
theorem cache_overwrite_counterexample :
    cache6 "AAA" = some "Apple Inc." ∧
    (get_ticker_details_batch resp6 cache6 ["BBB"]).1 "AAA" = some "AAA" := by
  constructor
  · simp [cache6, StrMap.insert, StrMap.emptyMap]
  · simp [get_ticker_details_batch, splitCached, splitStep, cache6, StrMap.emptyMap,
      StrMap.insert, chunks50, chunks50Go, processChunks, resp6, processItems,
      itemStep, List.foldl_cons, List.foldl_nil]

/-- The item loop can only set a cache key `k` to a provider-returned
name, so an entry starting at `v` stays `v` or becomes one. -/
theorem processItems_cache_inv (resp : ℕ → List String → Option (List TickerItem))
    (k v : String) (i : ℕ) (c : List String) (items : List TickerItem)
    (hresp : resp i c = some items) :
    ∀ (rest : List TickerItem), (∀ item ∈ rest, item ∈ items) →
    (∀ item ∈ items, item.ticker = k → item.name.isSome) →
    ∀ st : StrMap × StrMap,
      (∃ w, st.1 k = some w ∧ (w = v ∨ providedName resp k w)) →
      ∃ w, (processItems rest st).1 k = some w ∧ (w = v ∨ providedName resp k w) := by
  intro rest
  induction rest with
  | nil => exact fun _ _ st h => h
  | cons item rest ih =>
    intro hsub hnames st hst
    unfold processItems at *
    rw [List.foldl_cons]
    apply ih (fun x hx => hsub x (List.mem_cons_of_mem item hx)) hnames
    by_cases hemp : item.ticker = ""
    · rw [itemStep_empty hemp]
      exact hst
    · rw [itemStep_insert hemp]
      by_cases hkt : item.ticker = k
      · have hmem : item ∈ items := hsub item (List.mem_cons_self item rest)
        have hns := hnames item hmem hkt
        obtain ⟨w', hw'⟩ := Option.isSome_iff_exists.mp hns
        refine ⟨w', ?_, Or.inr ⟨i, c, items, item, hresp, hmem, hkt, hw'⟩⟩
        dsimp only
        rw [StrMap.insert_apply, if_pos hkt.symm, hw', Option.getD_some]
      · obtain ⟨w, hw, hwp⟩ := hst
        refine ⟨w, ?_, hwp⟩
        dsimp only
        rw [StrMap.insert_apply, if_neg (fun h => hkt h.symm)]
        exact hw

/-- The chunk loop preserves the same cache invariant. -/
theorem processChunks_cache_inv (resp : ℕ → List String → Option (List TickerItem))
    (k v : String)
    (hnames : ∀ i c items, resp i c = some items → ∀ item ∈ items,
      item.ticker = k → item.name.isSome) :
    ∀ (cs : List (List String)) (i : ℕ) (st : StrMap × StrMap),
      (∃ w, st.1 k = some w ∧ (w = v ∨ providedName resp k w)) →
      ∃ w, (processChunks resp cs i st).1 k = some w ∧
        (w = v ∨ providedName resp k w) := by
  intro cs
  induction cs with
  | nil => exact fun i st h => h
  | cons c cs ih =>
    intro i st hst
    unfold processChunks
    cases hr : resp i c with
    | some items =>
      exact ih _ _ (processItems_cache_inv resp k v i c items hr items
        (fun _ h => h) (hnames i c items hr) st hst)
    | none => exact ih _ _ hst

/-- C6 (amended): `get_ticker_details` never overwrites an existing
cache entry; and in `get_ticker_details_batch`, provided every response
item for an already-cached ticker carries a company name, an existing
entry either survives unchanged or is replaced only by a
provider-returned name — a ticker-symbol fallback never replaces a
resolved name. -/
theorem cache_overwrite_amended :
    (∀ (resp : Option (Option String)) (cache : StrMap) (t k v : String),
      cache k = some v → (get_ticker_details resp cache t).1 k = some v) ∧
    (∀ (resp : ℕ → List String → Option (List TickerItem)) (cache : StrMap)
       (tickers : List String) (k v : String), cache k = some v →
      (∀ i c items, resp i c = some items → ∀ item ∈ items, item.ticker = k →
        item.name.isSome) →
      ∃ w, (get_ticker_details_batch resp cache tickers).1 k = some w ∧
        (w = v ∨ providedName resp k w)) := by
  constructor
  · intro resp cache t k v hk
    unfold get_ticker_details
    cases hct : cache t with
    | some n => exact hk
    | none =>
      cases resp with
      | none => exact hk
      | some nm =>
        dsimp only
        rw [StrMap.insert_apply]
        have hne : ¬ (k = t) := by
          intro h
          rw [h] at hk
          rw [hk] at hct
          exact Option.noConfusion hct
        rw [if_neg hne]
        exact hk
  · intro resp cache tickers k v hk hnames
    simp only [get_ticker_details_batch]
    split_ifs with hu
    · exact ⟨v, hk, Or.inl rfl⟩
    · exact processChunks_cache_inv resp k v hnames _ 0 _ ⟨v, hk, Or.inl rfl⟩

/-- Witness for the amended C6: every provider call failing, the
resolved name of "AAA" survives a batch request for "BBB". -/
theorem cache_overwrite_amended_witness :
    ∃ w, (get_ticker_details_batch (fun _ _ => none) cache6 ["BBB"]).1 "AAA" =
        some w ∧
      (w = "Apple Inc." ∨ providedName (fun _ _ => none) "AAA" w) :=
  cache_overwrite_amended.2 (fun _ _ => none) cache6 ["BBB"] "AAA" "Apple Inc."
    (by simp [cache6, StrMap.insert, StrMap.emptyMap])
    (fun i c items h => Option.noConfusion h)
